import Mathlib

/-!
Verification of the sshfs-rs repository: a shallow embedding of the
server-side SFTP session layer (src/server/src/fs.rs,
src/server/src/sftp_server.rs) and of the client-side filesystem adapter
(src/client/src/filesystem.rs), together with theorems settling the
stated properties of the specification.

Machine integers (u32, u64) are modelled as Nat; Rust HashMap values are
modelled as association lists with unique keys (insert replaces, remove
deletes); fallible Rust code returns Except or Option; a Rust panic
(unwrap of None/Err) is modelled as an explicit panic outcome.
-/

/-! ## Association-list primitives (model of std HashMap) -/

/-- HashMap insert: replace the binding of the key if present, else append. -/
def upsert {α β : Type} [DecidableEq α] (k : α) (v : β) : List (α × β) → List (α × β)
  | [] => [(k, v)]
  | e :: rest => if e.1 = k then (k, v) :: rest else e :: upsert k v rest

/-- HashMap remove: delete the (unique) binding of the key. -/
def removeKey {α β : Type} [DecidableEq α] (k : α) : List (α × β) → List (α × β)
  | [] => []
  | e :: rest => if e.1 = k then rest else e :: removeKey k rest

/-- HashMap get: the value bound to the key, if any. -/
def alookup {α β : Type} [DecidableEq α] (k : α) : List (α × β) → Option β
  | [] => none
  | e :: rest => if e.1 = k then some e.2 else alookup k rest

theorem alookup_eq_none {α β : Type} [DecidableEq α] {k : α} {l : List (α × β)} :
    alookup k l = none ↔ ∀ e ∈ l, e.1 ≠ k := by
  induction l with
  | nil => simp [alookup]
  | cons f rest ih =>
    by_cases h : f.1 = k
    · simp only [alookup, if_pos h]
      constructor
      · intro hc; cases hc
      · intro hall
        exact absurd h (hall f (List.mem_cons_self f rest))
    · simp only [alookup, if_neg h, ih]
      constructor
      · intro hall e he
        rcases List.mem_cons.mp he with h1 | h1
        · subst h1; exact h
        · exact hall e h1
      · intro hall e he
        exact hall e (List.mem_cons_of_mem f he)

theorem alookup_mem {α β : Type} [DecidableEq α] {k : α} {v : β} {l : List (α × β)}
    (h : alookup k l = some v) : (k, v) ∈ l := by
  induction l with
  | nil => simp [alookup] at h
  | cons f rest ih =>
    by_cases hf : f.1 = k
    · simp only [alookup, if_pos hf] at h
      cases h
      have hfe : f = (k, f.2) := by
        cases f
        simp_all
      exact hfe ▸ List.mem_cons_self f rest
    · simp only [alookup, if_neg hf] at h
      exact List.mem_cons_of_mem _ (ih h)

theorem alookup_of_mem {α β : Type} [DecidableEq α] {k : α} {v : β} {l : List (α × β)}
    (hnd : (l.map Prod.fst).Nodup) (hm : (k, v) ∈ l) : alookup k l = some v := by
  induction l with
  | nil => simp at hm
  | cons f rest ih =>
    simp only [List.map_cons, List.nodup_cons] at hnd
    rcases List.mem_cons.mp hm with h1 | h1
    · rw [← h1]
      simp [alookup]
    · have hk : k ∈ rest.map Prod.fst := List.mem_map_of_mem Prod.fst h1
      have hfk : f.1 ≠ k := fun hcontra => hnd.1 (hcontra ▸ hk)
      simp only [alookup, if_neg hfk]
      exact ih hnd.2 h1

theorem mem_upsert_elim {α β : Type} [DecidableEq α] {k : α} {v : β} {l : List (α × β)}
    (hnd : (l.map Prod.fst).Nodup) {e : α × β} (he : e ∈ upsert k v l) :
    e = (k, v) ∨ (e ∈ l ∧ e.1 ≠ k) := by
  induction l with
  | nil =>
    simp [upsert] at he
    left
    exact he
  | cons f rest ih =>
    simp only [List.map_cons, List.nodup_cons] at hnd
    by_cases hfk : f.1 = k
    · simp only [upsert, if_pos hfk] at he
      rcases List.mem_cons.mp he with h1 | h1
      · left; exact h1
      · right
        refine ⟨List.mem_cons_of_mem _ h1, fun hek => ?_⟩
        have hmem : e.1 ∈ rest.map Prod.fst := List.mem_map_of_mem Prod.fst h1
        exact hnd.1 (by rw [hfk, ← hek]; exact hmem)
    · simp only [upsert, if_neg hfk] at he
      rcases List.mem_cons.mp he with h1 | h1
      · right
        subst h1
        exact ⟨List.mem_cons_self _ _, hfk⟩
      · rcases ih hnd.2 h1 with h2 | h2
        · left; exact h2
        · right; exact ⟨List.mem_cons_of_mem _ h2.1, h2.2⟩

theorem keys_upsert_sub {α β : Type} [DecidableEq α] {k a : α} {v : β} {l : List (α × β)}
    (h : a ∈ (upsert k v l).map Prod.fst) : a = k ∨ a ∈ l.map Prod.fst := by
  induction l with
  | nil => simp [upsert] at h; left; exact h
  | cons f rest ih =>
    by_cases hfk : f.1 = k
    · simp only [upsert, if_pos hfk, List.map_cons, List.mem_cons] at h
      rcases h with h1 | h1
      · left; exact h1
      · right; simp [h1]
    · simp only [upsert, if_neg hfk, List.map_cons, List.mem_cons] at h
      rcases h with h1 | h1
      · right; simp [h1]
      · rcases ih h1 with h2 | h2
        · left; exact h2
        · right; simp [h2]

theorem nodup_keys_upsert {α β : Type} [DecidableEq α] {k : α} {v : β} {l : List (α × β)}
    (hnd : (l.map Prod.fst).Nodup) : ((upsert k v l).map Prod.fst).Nodup := by
  induction l with
  | nil => simp [upsert]
  | cons f rest ih =>
    simp only [List.map_cons, List.nodup_cons] at hnd
    by_cases hfk : f.1 = k
    · simp only [upsert, if_pos hfk, List.map_cons, List.nodup_cons]
      exact ⟨fun hc => hnd.1 (hfk ▸ hc), hnd.2⟩
    · simp only [upsert, if_neg hfk, List.map_cons, List.nodup_cons]
      refine ⟨fun hc => ?_, ih hnd.2⟩
      rcases keys_upsert_sub hc with h1 | h1
      · exact hfk h1
      · exact hnd.1 h1

theorem removeKey_sublist {α β : Type} [DecidableEq α] (k : α) (l : List (α × β)) :
    (removeKey k l).Sublist l := by
  induction l with
  | nil => exact List.Sublist.refl _
  | cons f rest ih =>
    by_cases hfk : f.1 = k
    · simp only [removeKey, if_pos hfk]
      exact List.Sublist.cons f (List.Sublist.refl rest)
    · simp only [removeKey, if_neg hfk]
      exact List.Sublist.cons₂ f ih

theorem mem_removeKey {α β : Type} [DecidableEq α] {k : α} {l : List (α × β)} {e : α × β}
    (h : e ∈ removeKey k l) : e ∈ l :=
  (removeKey_sublist k l).subset h

theorem nodup_keys_removeKey {α β : Type} [DecidableEq α] {k : α} {l : List (α × β)}
    (hnd : (l.map Prod.fst).Nodup) : ((removeKey k l).map Prod.fst).Nodup :=
  List.Nodup.sublist (List.Sublist.map Prod.fst (removeKey_sublist k l)) hnd

theorem alookup_removeKey_self {α β : Type} [DecidableEq α] {k : α} {l : List (α × β)}
    (hnd : (l.map Prod.fst).Nodup) : alookup k (removeKey k l) = none := by
  induction l with
  | nil => simp [removeKey, alookup]
  | cons f rest ih =>
    simp only [List.map_cons, List.nodup_cons] at hnd
    by_cases hfk : f.1 = k
    · simp only [removeKey, if_pos hfk]
      rw [alookup_eq_none]
      intro e he hek
      exact hnd.1 (hfk ▸ hek ▸ List.mem_map_of_mem Prod.fst he)
    · simp only [removeKey, if_neg hfk, alookup, if_neg hfk]
      exact ih hnd.2

/-! ## VirtualRoot (src/server/src/fs.rs)

Rust Path values are modelled by their component decomposition, the view
that strip_prefix, join and starts_with actually operate on: a RootDir
marker (the field abs) followed by a list of components, each one either
a ParentDir (dot dot) or a Normal name. -/

/-- One Rust path component: ParentDir or a Normal name. -/
inductive PComp
  | up
  | name (s : String)
deriving DecidableEq, Repr

/-- A Rust path as its list of components: abs records a leading RootDir. -/
structure RPath where
  abs : Bool
  comps : List PComp
deriving DecidableEq, Repr

/-- Path strip_prefix with "/" as the prefix: succeeds exactly on absolute
paths, yielding the components after the RootDir marker. -/
def stripRootSlash (p : RPath) : Option (List PComp) :=
  if p.abs then some p.comps else none

/-- PathBuf join with a relative right operand: append the components. -/
def joinRel (root : RPath) (delta : List PComp) : RPath :=
  ⟨root.abs, root.comps ++ delta⟩

/-- Path starts_with: whole-component prefix test; ParentDir is an ordinary
component and is not resolved. -/
def pstartsWith (p base : RPath) : Bool :=
  (p.abs == base.abs) && base.comps.isPrefixOf p.comps

/-- VirtualRoot::to_real_path: strip the leading slash, join onto the root,
then check the textual starts_with escape guard. -/
def toRealPath (root : RPath) (vp : RPath) : Except String RPath :=
  match stripRootSlash vp with
  | none => Except.error "Path does not start with a slash."
  | some delta =>
    let real := joinRel root delta
    if pstartsWith real root then Except.ok real
    else Except.error "Path is outside the virtual root."

/-- VirtualRoot::verify_real_path: the textual escape guard alone. -/
def verifyRealPath (root : RPath) (rp : RPath) : Except String Unit :=
  if pstartsWith rp root then Except.ok () else Except.error "Path is outside the virtual root."

/-- Semantic resolution of ParentDir components, as the OS would resolve the
path: a name pushes, a ParentDir pops (and is absorbed at the root). -/
def resolveAux : List String → List PComp → List String
  | acc, [] => acc
  | acc, PComp.name s :: rest => resolveAux (acc ++ [s]) rest
  | acc, PComp.up :: rest => resolveAux acc.dropLast rest

/-- Resolved form of an absolute path. -/
def resolveAbs (p : RPath) : List String :=
  resolveAux [] p.comps

/-- The virtual root used in the concrete sandbox scenarios: /srv/share. -/
def srvRoot : RPath :=
  ⟨true, [PComp.name "srv", PComp.name "share"]⟩

/-! ## ErrorMap (src/client/src/filesystem.rs, impl From ErrorCode for Error) -/

/-- Linux errno constant EPERM. -/
def ePerm : Nat := 1

/-- Linux errno constant ENOENT. -/
def eNoEnt : Nat := 2

/-- Linux errno constant EIO. -/
def eInOut : Nat := 5

/-- Linux errno constant ENXIO. -/
def eNxDev : Nat := 6

/-- Linux errno constant EBADF. -/
def eBadFd : Nat := 9

/-- Linux errno constant EACCES. -/
def eAcces : Nat := 13

/-- Linux errno constant EEXIST. -/
def eExist : Nat := 17

/-- Linux errno constant ENODEV. -/
def eNoDev : Nat := 19

/-- Linux errno constant ENOTDIR. -/
def eNotDir : Nat := 20

/-- Linux errno constant EINVAL. -/
def eInval : Nat := 22

/-- Linux errno constant ENOSPC. -/
def eNoSpc : Nat := 28

/-- Linux errno constant ENAMETOOLONG. -/
def eNameTooLong : Nat := 36

/-- Linux errno constant ENOLCK. -/
def eNoLck : Nat := 37

/-- Linux errno constant ENOTEMPTY. -/
def eNotEmpty : Nat := 39

/-- Linux errno constant ELOOP. -/
def eLoop : Nat := 40

/-- Linux errno constant ENETDOWN. -/
def eNetDown : Nat := 100

/-- Linux errno constant EDQUOT. -/
def eDQuot : Nat := 122

/-- ssh2 ErrorCode: a transport-layer session error or an SFTP status code. -/
inductive ErrorCode
  | session (n : Nat)
  | sftp (n : Nat)
deriving DecidableEq, Repr

/-- The From ErrorCode for Error conversion of the client. -/
def errnoOf : ErrorCode → Nat
  | ErrorCode.session _ => eNxDev
  | ErrorCode.sftp i =>
    match i with
    | 2 => eNoEnt
    | 3 => eAcces
    | 4 => eInOut
    | 5 => eNoDev
    | 6 => eNxDev
    | 7 => eNetDown
    | 8 => eNoDev
    | 9 => eBadFd
    | 10 => eNoEnt
    | 11 => eExist
    | 12 => eAcces
    | 13 => eNxDev
    | 14 => eNoSpc
    | 15 => eDQuot
    | 16 => eNoDev
    | 17 => eNoLck
    | 18 => eNotEmpty
    | 19 => eNotDir
    | 20 => eNameTooLong
    | 21 => eLoop
    | _ => 0

/-! ## SftpSession (src/server/src/sftp_server.rs)

The session state holds the negotiated version, the session-global
root_dir_read_done toggle, the cwd offset, the path-handle table and the
open-file-handle table. External filesystem state is passed in where a
handler consults it: an open file is a byte list, a directory listing is
an association list from virtual path to child names. A Rust unwrap that
would panic is the SOut.panic outcome. -/

/-- The russh-sftp StatusCode values this server uses. -/
inductive StatusC
  | okStatus
  | eof
  | noSuchFile
  | permissionDenied
  | failure
  | connectionLost
  | opUnsupported
  | invalidHandle
deriving DecidableEq, Repr

/-- Outcome of a server handler: a reply value, an error Status, or a panic
(an unwrap failure aborting the session task). -/
inductive SOut (α : Type)
  | ok (a : α)
  | err (c : StatusC)
  | panic
deriving DecidableEq, Repr

/-- An open file object: its byte content (bytes as Nat). -/
structure SrvFile where
  content : List Nat
deriving DecidableEq, Repr

/-- SftpSession state. -/
structure SrvSession where
  version : Option Nat
  rootDirReadDone : Bool
  cwdOffset : String
  handles : List (String × String)
  fileHandles : List (String × SrvFile)
deriving DecidableEq, Repr

/-- SftpSession::new_with_username: fresh session state. -/
def srvInit0 : SrvSession :=
  ⟨none, false, "/", [], []⟩

/-- SftpSession::init: reject a duplicate init with ConnectionLost, else
store the version and reply with Version (modelled as ok ()). -/
def sinit (s : SrvSession) (v : Nat) : SrvSession × SOut Unit :=
  if s.version.isSome then (s, SOut.err StatusC.connectionLost)
  else ({ s with cwdOffset := "/", version := some v }, SOut.ok ())

/-- SftpSession::close: remove the handle from the path-handle table only
(the file-handle table is left untouched) and reply Ok. -/
def sclose (s : SrvSession) (h : String) : SrvSession × SOut Unit :=
  ({ s with handles := removeKey h s.handles }, SOut.ok ())

/-- SftpSession::open: allocate handle_<id> and register it in both the
path-handle and the file-handle table; the opened file object is given. -/
def sopen (s : SrvSession) (id : Nat) (vpath : String) (f : SrvFile) : SrvSession × String :=
  let h := "handle_" ++ toString id
  ({ s with
      handles := upsert h vpath s.handles,
      fileHandles := upsert h f s.fileHandles }, h)

/-- SftpSession::read: unwrap the file-handle table entry (panic when the
handle is absent); reply Eof when offset is at or past the file size;
otherwise read up to len bytes at offset and truncate the buffer to the
bytes actually read; finally unwrap the path-handle entry for the audit
line (panic when that entry is absent). -/
def sread (s : SrvSession) (h : String) (offset len : Nat) : SOut (List Nat) :=
  match alookup h s.fileHandles with
  | none => SOut.panic
  | some f =>
    if f.content.length ≤ offset then SOut.err StatusC.eof
    else
      let bytesRead := min len (f.content.length - offset)
      match alookup h s.handles with
      | none => SOut.panic
      | some _ => SOut.ok ((f.content.drop offset).take bytesRead)

/-- Byte-list overwrite at an offset, zero-filling any gap past the end. -/
def writeAt (c : List Nat) (off : Nat) (d : List Nat) : List Nat :=
  (c.take off ++ List.replicate (off - c.length) 0) ++ d ++ c.drop (off + d.length)

/-- SftpSession::write: a missing file handle replies Eof; otherwise write
the data at offset, then unwrap the path-handle entry for the audit line
(panic when that entry is absent) before replying Ok. -/
def swrite (s : SrvSession) (h : String) (offset : Nat) (data : List Nat) :
    SrvSession × SOut Unit :=
  match alookup h s.fileHandles with
  | none => (s, SOut.err StatusC.eof)
  | some f =>
    let s2 := { s with fileHandles := upsert h ⟨writeAt f.content offset data⟩ s.fileHandles }
    match alookup h s.handles with
    | none => (s2, SOut.panic)
    | some _ => (s2, SOut.ok ())

/-- SftpSession::fstat: a handle present in the path-handle table replies
with attributes (suppressed here); a missing one replies NoSuchFile. -/
def sfstat (s : SrvSession) (h : String) : SOut Unit :=
  match alookup h s.handles with
  | some _ => SOut.ok ()
  | none => SOut.err StatusC.noSuchFile

/-- SftpSession::check_req_done: toggle the session-global flag and return
its previous value. -/
def checkReqDone (s : SrvSession) : SrvSession × Bool :=
  ({ s with rootDirReadDone := !s.rootDirReadDone }, s.rootDirReadDone)

/-- SftpSession::opendir: reset the session-global root_dir_read_done flag
to false and bind handle_<id> to the directory path. -/
def sopendir (s : SrvSession) (id : Nat) (path : String) : SrvSession × String :=
  let h := "handle_" ++ toString id
  ({ s with rootDirReadDone := false, handles := upsert h path s.handles }, h)

/-- SftpSession::readdir: consult check_req_done first; when it reports not
yet done, unwrap the handle and the directory listing and reply with one
entry per child; when it reports done, reply Eof. -/
def sreaddir (fs : List (String × List String)) (s : SrvSession) (h : String) :
    SrvSession × SOut (List String) :=
  let done := (checkReqDone s).2
  let s2 := (checkReqDone s).1
  if done then (s2, SOut.err StatusC.eof)
  else
    match alookup h s2.handles with
    | none => (s2, SOut.panic)
    | some vpath =>
      match alookup vpath fs with
      | none => (s2, SOut.panic)
      | some children => (s2, SOut.ok children)

/-! ## Inodes (src/client/src/filesystem.rs, struct Inodes)

The client inode table: a HashMap from inode number to remote path plus
the running maximum. Paths are remote path strings. -/

/-- The client inode table. -/
structure Inodes where
  list : List (Nat × String)
  maxInode : Nat
deriving DecidableEq, Repr

/-- Inodes::default: empty table, max 0. -/
def inodesInit : Inodes :=
  ⟨[], 0⟩

/-- Linear scan of the table for a given path, returning its inode. -/
def pfind (p : String) : List (Nat × String) → Option Nat
  | [] => none
  | e :: rest => if e.2 = p then some e.1 else pfind p rest

/-- Inodes::get_inode: linear scan for an entry whose path matches. -/
def getInode (t : Inodes) (p : String) : Option Nat :=
  pfind p t.list

/-- Inodes::get_path: the path bound to an inode. -/
def getPath (t : Inodes) (i : Nat) : Option String :=
  alookup i t.list

/-- Inodes::add: return the existing inode when the path is bound, else
allocate max_inode + 1 and bind it. -/
def internI (t : Inodes) (p : String) : Inodes × Nat :=
  match getInode t p with
  | some i => (t, i)
  | none =>
    ({ list := upsert (t.maxInode + 1) p t.list, maxInode := t.maxInode + 1 },
      t.maxInode + 1)

/-- Inodes::del_inode: drop the binding of the inode; max_inode is kept. -/
def retireI (t : Inodes) (i : Nat) : Inodes :=
  { t with list := removeKey i t.list }

/-- Inodes::_rename: rebind the inode of old_path to new_path; a missing
old_path leaves the table unchanged. -/
def rebindI (t : Inodes) (old new : String) : Inodes :=
  match getInode t old with
  | none => t
  | some i => { t with list := upsert i new t.list }

/-- One operation on the inode table. -/
inductive InodeOp
  | intern (p : String)
  | retire (i : Nat)
  | rebind (old new : String)
deriving DecidableEq, Repr

/-- Apply one operation (dropping the returned inode of intern). -/
def applyOp (t : Inodes) : InodeOp → Inodes
  | InodeOp.intern p => (internI t p).1
  | InodeOp.retire i => retireI t i
  | InodeOp.rebind o n => rebindI t o n

/-- Run a sequence of operations. -/
def runOps (t : Inodes) : List InodeOp → Inodes
  | [] => t
  | op :: rest => runOps (applyOp t op) rest

/-- Run a sequence of operations from the initial table. -/
def runFromInit (ops : List InodeOp) : Inodes :=
  runOps inodesInit ops

/-- Side condition on a rebind step: the new path must be unbound or bound
to the same inode the old path has. Intern and retire are unconditional. -/
def rebindSafe (t : Inodes) : InodeOp → Prop
  | InodeOp.rebind o n => getInode t n = none ∨ getInode t n = getInode t o
  | _ => True

/-- Every step of the trace satisfies its side condition in the state where
it executes. -/
def safeTrace (t : Inodes) : List InodeOp → Prop
  | [] => True
  | op :: rest => rebindSafe t op ∧ safeTrace (applyOp t op) rest

/-- Path injectivity: no two entries share a path. -/
def PathInj (l : List (Nat × String)) : Prop :=
  ∀ e f, e ∈ l → f ∈ l → e.2 = f.2 → e.1 = f.1

/-- Well-formedness of a table: unique keys, path injectivity, and every
inode bounded by max_inode. -/
def GoodT (t : Inodes) : Prop :=
  (t.list.map Prod.fst).Nodup ∧ PathInj t.list ∧ ∀ e ∈ t.list, e.1 ≤ t.maxInode

theorem pfind_eq_none {p : String} {l : List (Nat × String)} :
    pfind p l = none ↔ ∀ e ∈ l, e.2 ≠ p := by
  induction l with
  | nil => simp [pfind]
  | cons f rest ih =>
    by_cases h : f.2 = p
    · simp only [pfind, if_pos h]
      constructor
      · intro hc; cases hc
      · intro hall
        exact absurd h (hall f (List.mem_cons_self f rest))
    · simp only [pfind, if_neg h, ih]
      constructor
      · intro hall e he
        rcases List.mem_cons.mp he with h1 | h1
        · subst h1; exact h
        · exact hall e h1
      · intro hall e he
        exact hall e (List.mem_cons_of_mem f he)

theorem pfind_mem {p : String} {i : Nat} {l : List (Nat × String)}
    (h : pfind p l = some i) : (i, p) ∈ l := by
  induction l with
  | nil => simp [pfind] at h
  | cons f rest ih =>
    by_cases hf : f.2 = p
    · simp only [pfind, if_pos hf] at h
      cases h
      have hfe : f = (f.1, p) := by
        cases f
        simp_all
      exact hfe ▸ List.mem_cons_self f rest
    · simp only [pfind, if_neg hf] at h
      exact List.mem_cons_of_mem _ (ih h)

theorem goodT_init : GoodT inodesInit := by
  refine ⟨List.nodup_nil, ?_, ?_⟩
  · intro e f he
    simp [inodesInit] at he
  · intro e he
    simp [inodesInit] at he

theorem goodT_intern (t : Inodes) (p : String) (hg : GoodT t) :
    GoodT (internI t p).1 := by
  obtain ⟨hnd, hinj, hle⟩ := hg
  unfold internI
  cases hf : getInode t p with
  | some i =>
    exact ⟨hnd, hinj, hle⟩
  | none =>
    simp only
    rw [getInode] at hf
    refine ⟨nodup_keys_upsert hnd, ?_, ?_⟩
    · intro e f he hfm heq
      rcases mem_upsert_elim hnd he with he1 | ⟨he1, he2⟩ <;>
        rcases mem_upsert_elim hnd hfm with hf1 | ⟨hf1, hf2⟩
      · rw [he1, hf1]
      · exfalso
        have : f.2 ≠ p := pfind_eq_none.mp hf f hf1
        exact this (by rw [← heq, he1])
      · exfalso
        have : e.2 ≠ p := pfind_eq_none.mp hf e he1
        exact this (by rw [heq, hf1])
      · exact hinj e f he1 hf1 heq
    · intro e he
      rcases mem_upsert_elim hnd he with he1 | ⟨he1, _⟩
      · rw [he1]
      · exact Nat.le_trans (hle e he1) (Nat.le_succ _)

theorem goodT_retire (t : Inodes) (i : Nat) (hg : GoodT t) :
    GoodT (retireI t i) := by
  obtain ⟨hnd, hinj, hle⟩ := hg
  refine ⟨nodup_keys_removeKey hnd, ?_, ?_⟩
  · intro e f he hfm heq
    exact hinj e f (mem_removeKey he) (mem_removeKey hfm) heq
  · intro e he
    exact hle e (mem_removeKey he)

theorem goodT_rebind (t : Inodes) (o n : String) (hg : GoodT t)
    (hc : getInode t n = none ∨ getInode t n = getInode t o) :
    GoodT (rebindI t o n) := by
  obtain ⟨hnd, hinj, hle⟩ := hg
  unfold rebindI
  cases ho : getInode t o with
  | none => exact ⟨hnd, hinj, hle⟩
  | some i =>
    rw [getInode] at ho
    have himem : (i, o) ∈ t.list := pfind_mem ho
    refine ⟨nodup_keys_upsert hnd, ?_, ?_⟩
    · intro e f he hfm heq
      rcases mem_upsert_elim hnd he with he1 | ⟨he1, he2⟩ <;>
        rcases mem_upsert_elim hnd hfm with hf1 | ⟨hf1, hf2⟩
      · rw [he1, hf1]
      · exfalso
        have hfn : f.2 = n := by rw [← heq, he1]
        rcases hc with hc1 | hc1
        · exact pfind_eq_none.mp hc1 f hf1 hfn
        · rw [getInode, getInode, ho] at hc1
          have : f.1 = i := by
            have := pfind_mem hc1
            exact hinj f (i, n) hf1 (hfn ▸ this) hfn
          exact hf2 this
      · exfalso
        have hen : e.2 = n := by rw [heq, hf1]
        rcases hc with hc1 | hc1
        · exact pfind_eq_none.mp hc1 e he1 hen
        · rw [getInode, getInode, ho] at hc1
          have : e.1 = i := by
            have := pfind_mem hc1
            exact hinj e (i, n) he1 (hen ▸ this) hen
          exact he2 this
      · exact hinj e f he1 hf1 heq
    · intro e he
      rcases mem_upsert_elim hnd he with he1 | ⟨he1, _⟩
      · rw [he1]
        exact hle (i, o) himem
      · exact hle e he1

theorem goodT_step (t : Inodes) (op : InodeOp) (hg : GoodT t)
    (hs : rebindSafe t op) : GoodT (applyOp t op) := by
  cases op with
  | intern p => exact goodT_intern t p hg
  | retire i => exact goodT_retire t i hg
  | rebind o n => exact goodT_rebind t o n hg hs

theorem goodT_run (ops : List InodeOp) : ∀ t : Inodes, GoodT t →
    safeTrace t ops → GoodT (runOps t ops) := by
  induction ops with
  | nil => intro t hg _; exact hg
  | cons op rest ih =>
    intro t hg hs
    exact ih (applyOp t op) (goodT_step t op hg hs.1) hs.2

/-! ## Sshfs::mknod, Sshfs::unlink, Sshfs::rmdir (src/client/src/filesystem.rs) -/

/-- The libc S_IFMT file-type mask. -/
def sIfmt : Nat := 0xF000

/-- The libc S_IFREG regular-file type. -/
def sIfreg : Nat := 0x8000

/-- Bitwise complement of a u32 value. -/
def not32 (x : Nat) : Nat := 0xFFFFFFFF ^^^ x

/-- The mode actually sent by mknod: mode AND (NOT umask OR S_IFMT). -/
def maskedMode (mode umask : Nat) : Nat :=
  mode &&& (not32 umask ||| sIfmt)

/-- What mknod does: an EPERM reply, an ENOENT reply, or a remote
open_mode call with the CREATE flag and the computed mode. -/
inductive MknodResult
  | eperm
  | enoent
  | remote (flagsCreate : Bool) (mode : Nat)
deriving DecidableEq, Repr

/-- Sshfs::mknod: reject any non-regular file type with EPERM before any
remote call; reject an unknown parent inode with ENOENT; otherwise issue
the remote open_mode(path, CREATE, mode AND (NOT umask OR S_IFMT)). -/
def mknodModel (parentBound : Bool) (mode umask : Nat) : MknodResult :=
  if mode &&& sIfmt = sIfreg then
    if parentBound then MknodResult.remote true (maskedMode mode umask)
    else MknodResult.enoent
  else MknodResult.eperm

/-- Outcome of a client callback: reply.ok, reply.error(errno), or a panic
before any reply is sent. -/
inductive ReplyOut
  | okReply
  | errno (e : Nat)
  | panic
deriving DecidableEq, Repr

/-- Sshfs::unlink: unknown parent replies ENOENT; a remote unlink failure
replies with the translated errno; on remote success the composed path is
looked up in the inode table and unwrapped - a missing binding panics
before any reply - then the inode is retired and reply.ok is sent. The
remote result is an input (none = success). -/
def unlinkModel (t : Inodes) (parent : Nat) (name : String)
    (remote : Option ErrorCode) : Inodes × ReplyOut :=
  match getPath t parent with
  | none => (t, ReplyOut.errno eNoEnt)
  | some pp =>
    match remote with
    | some e => (t, ReplyOut.errno (errnoOf e))
    | none =>
      match getInode t (pp ++ "/" ++ name) with
      | none => (t, ReplyOut.panic)
      | some ino => (retireI t ino, ReplyOut.okReply)

/-- Sshfs::rmdir: same shape as unlink with the remote rmdir call. -/
def rmdirModel (t : Inodes) (parent : Nat) (name : String)
    (remote : Option ErrorCode) : Inodes × ReplyOut :=
  match getPath t parent with
  | none => (t, ReplyOut.errno eNoEnt)
  | some pp =>
    match remote with
    | some e => (t, ReplyOut.errno (errnoOf e))
    | none =>
      match getInode t (pp ++ "/" ++ name) with
      | none => (t, ReplyOut.panic)
      | some ino => (retireI t ino, ReplyOut.okReply)

/-! ## Claim theorems -/

/-- Claim C1. The claim states that to_real_path("/..") and
to_real_path("/../etc/passwd") return an error. On the code they return
Ok: the joined path keeps the ParentDir component, the textual
starts_with guard accepts it, and the path resolves to /srv (outside the
root /srv/share). The no-leading-slash case does error as claimed. -/
theorem virtual_root_traversal_bug :
    toRealPath srvRoot ⟨true, [PComp.up]⟩
      = Except.ok ⟨true, [PComp.name "srv", PComp.name "share", PComp.up]⟩
    ∧ toRealPath srvRoot ⟨true, [PComp.up, PComp.name "etc", PComp.name "passwd"]⟩
      = Except.ok ⟨true, [PComp.name "srv", PComp.name "share", PComp.up,
          PComp.name "etc", PComp.name "passwd"]⟩
    ∧ resolveAbs ⟨true, [PComp.name "srv", PComp.name "share", PComp.up]⟩ = ["srv"]
    ∧ resolveAbs srvRoot = ["srv", "share"]
    ∧ (["srv", "share"].isPrefixOf ["srv"]) = false
    ∧ toRealPath srvRoot ⟨false, [PComp.name "foo"]⟩
      = Except.error "Path does not start with a slash." := by
  refine ⟨rfl, rfl, rfl, rfl, ?_, rfl⟩
  decide

/-- Claim C2. The claim states that after close(h), read, write and fstat
on h fail with INVALID_HANDLE. On the code, close removes h only from
the path-handle table: fstat then replies NoSuchFile, while read and
write still find the open file object, perform the I/O and panic on the
unwrap of the pruned path-handle entry, so no status is ever replied. -/
theorem handle_close_lifetime_bug :
    sfstat (sclose (sopen srvInit0 1 "/f" ⟨[7]⟩).1 "handle_1").1 "handle_1"
      = SOut.err StatusC.noSuchFile
    ∧ sread (sclose (sopen srvInit0 1 "/f" ⟨[7]⟩).1 "handle_1").1 "handle_1" 0 1
      = SOut.panic
    ∧ (swrite (sclose (sopen srvInit0 1 "/f" ⟨[7]⟩).1 "handle_1").1 "handle_1" 0 [1]).2
      = SOut.panic
    ∧ SOut.err StatusC.noSuchFile ≠ (SOut.err StatusC.invalidHandle : SOut Unit) := by
  refine ⟨?_, ?_, ?_, ?_⟩ <;> decide

/-- Claim C3. Every mapping the claim lists does match the code, but the
claim also requires every unlisted SFTP status to map to EIO: the code
maps them to errno 0 instead (the wildcard arm), so status 22 translates
to 0, not EIO. -/
theorem errno_map_unmapped_bug :
    errnoOf (ErrorCode.sftp 2) = eNoEnt
    ∧ errnoOf (ErrorCode.sftp 10) = eNoEnt
    ∧ errnoOf (ErrorCode.sftp 3) = eAcces
    ∧ errnoOf (ErrorCode.sftp 12) = eAcces
    ∧ errnoOf (ErrorCode.sftp 4) = eInOut
    ∧ errnoOf (ErrorCode.sftp 7) = eNetDown
    ∧ errnoOf (ErrorCode.sftp 9) = eBadFd
    ∧ errnoOf (ErrorCode.sftp 11) = eExist
    ∧ errnoOf (ErrorCode.sftp 14) = eNoSpc
    ∧ errnoOf (ErrorCode.sftp 15) = eDQuot
    ∧ errnoOf (ErrorCode.sftp 17) = eNoLck
    ∧ errnoOf (ErrorCode.sftp 18) = eNotEmpty
    ∧ errnoOf (ErrorCode.sftp 19) = eNotDir
    ∧ errnoOf (ErrorCode.sftp 20) = eNameTooLong
    ∧ errnoOf (ErrorCode.sftp 21) = eLoop
    ∧ errnoOf (ErrorCode.session 0) = eNxDev
    ∧ errnoOf (ErrorCode.sftp 22) = 0
    ∧ (0 : Nat) ≠ eInOut := by
  refine ⟨rfl, rfl, rfl, rfl, rfl, rfl, rfl, rfl, rfl, rfl, rfl, rfl, rfl, rfl,
    rfl, rfl, rfl, ?_⟩
  decide

/-- Claim C4. The claim states the drained cursor is per handle. On the
code it is one session-global toggle: with directory handles A (/a) and
B (/b) both open, readdir(A) returns the entries of /a and flips the
flag, so the first readdir(B) returns Eof instead of the entries of /b. -/
theorem readdir_cursor_shared_bug :
    (sreaddir [("/a", ["x"]), ("/b", ["y"])]
        (sopendir (sopendir srvInit0 1 "/a").1 2 "/b").1 "handle_1").2
      = SOut.ok ["x"]
    ∧ (sreaddir [("/a", ["x"]), ("/b", ["y"])]
        (sreaddir [("/a", ["x"]), ("/b", ["y"])]
          (sopendir (sopendir srvInit0 1 "/a").1 2 "/b").1 "handle_1").1 "handle_2").2
      = SOut.err StatusC.eof
    ∧ SOut.err StatusC.eof ≠ (SOut.ok ["y"] : SOut (List String)) := by
  refine ⟨?_, ?_, ?_⟩ <;> decide

/-- Claim C5, counterexample. The claim states the first readdir reply
contains the entries dot and dot-dot besides the children. On the code
the reply is exactly the read_dir listing, which contains neither: for a
directory /d with single child a the reply is the list with just a. -/
theorem readdir_no_dot_entries :
    (sreaddir [("/d", ["a"])] (sopendir srvInit0 1 "/d").1 "handle_1").2
      = SOut.ok ["a"]
    ∧ "." ∉ (["a"] : List String)
    ∧ ".." ∉ (["a"] : List String) := by
  refine ⟨?_, ?_, ?_⟩ <;> decide

/-- Claim C5, amended: on a freshly opened directory handle (flag reset by
opendir) bound to a stable directory with duplicate-free children, the
first readdir returns exactly the children - each one exactly once and
without synthetic dot entries - and the second readdir returns Eof. -/
theorem readdir_first_eof_second (fs : List (String × List String)) (s : SrvSession)
    (h d : String) (cs : List String)
    (h1 : s.rootDirReadDone = false)
    (h2 : alookup h s.handles = some d)
    (h3 : alookup d fs = some cs)
    (h4 : cs.Nodup) :
    (sreaddir fs s h).2 = SOut.ok cs
    ∧ (∀ c ∈ cs, cs.count c = 1)
    ∧ (sreaddir fs (sreaddir fs s h).1 h).2 = SOut.err StatusC.eof := by
  refine ⟨?_, ?_, ?_⟩
  · simp [sreaddir, checkReqDone, h1, h2, h3]
  · intro c hc
    exact List.count_eq_one_of_mem h4 hc
  · simp [sreaddir, checkReqDone, h1, h2, h3]

/-- Claim C5, witness for the amended theorem at a concrete directory. -/
theorem readdir_first_eof_second_witness :
    (sreaddir [("/d", ["a", "b"])] (sopendir srvInit0 1 "/d").1 "handle_1").2
      = SOut.ok ["a", "b"] :=
  (readdir_first_eof_second [("/d", ["a", "b"])] (sopendir srvInit0 1 "/d").1
    "handle_1" "/d" ["a", "b"] rfl (by decide) rfl (by decide)).1

/-- Claim C6. The first init on a session whose version is unset stores
the version and replies Version (ok); any init on a session whose
version is already set replies the error ConnectionLost and leaves the
stored version unchanged. -/
theorem init_version_once (s t : SrvSession) (v u w : Nat)
    (h1 : s.version = none) (h2 : t.version = some w) :
    (sinit s v).1.version = some v
    ∧ (sinit s v).2 = SOut.ok ()
    ∧ (sinit t u).2 = SOut.err StatusC.connectionLost
    ∧ (sinit t u).1.version = some w := by
  refine ⟨?_, ?_, ?_, ?_⟩ <;> simp [sinit, h1, h2]

/-- Claim C6, witness: fresh session then duplicate init. -/
theorem init_version_once_witness :
    (sinit srvInit0 3).1.version = some 3
    ∧ (sinit (sinit srvInit0 3).1 4).2 = SOut.err StatusC.connectionLost :=
  ⟨(init_version_once srvInit0 (sinit srvInit0 3).1 3 4 3 rfl rfl).1,
    (init_version_once srvInit0 (sinit srvInit0 3).1 3 4 3 rfl rfl).2.2.1⟩

/-- Claim C7, counterexample. The claim asserts the partial-bijection
invariant for every sequence of intern, retire and rebind operations.
Rebinding /a to /b while /b is already bound leaves inodes 1 and 2 both
bound to /b: two distinct inodes share a path. -/
theorem inode_rebind_breaks_bijection :
    getPath (runFromInit
        [InodeOp.intern "/a", InodeOp.intern "/b", InodeOp.rebind "/a" "/b"]) 1
      = some "/b"
    ∧ getPath (runFromInit
        [InodeOp.intern "/a", InodeOp.intern "/b", InodeOp.rebind "/a" "/b"]) 2
      = some "/b"
    ∧ (1 : Nat) ≠ 2 := by
  refine ⟨?_, ?_, ?_⟩ <;> decide

/-- Claim C7, amended: for every sequence of intern, retire and rebind
operations from the initial table in which every rebind targets a path
that is unbound or already bound to the rebound inode, the table keeps
unique inode keys, no two distinct inodes share a path, every inode is
bounded by max, intern returns the existing inode of a bound path and
otherwise allocates max+1 (strictly above every inode in the table, so
numbers are never reused), retire removes the binding without touching
max, and the path of the inode of a bound path is that path. -/
theorem inode_table_contract (ops : List InodeOp)
    (hs : safeTrace inodesInit ops) :
    ((runFromInit ops).list.map Prod.fst).Nodup
    ∧ PathInj (runFromInit ops).list
    ∧ (∀ e ∈ (runFromInit ops).list, e.1 ≤ (runFromInit ops).maxInode)
    ∧ (∀ p i, getInode (runFromInit ops) p = some i →
        internI (runFromInit ops) p = (runFromInit ops, i))
    ∧ (∀ p, getInode (runFromInit ops) p = none →
        (internI (runFromInit ops) p).2 = (runFromInit ops).maxInode + 1
        ∧ (internI (runFromInit ops) p).1.maxInode = (runFromInit ops).maxInode + 1
        ∧ ∀ e ∈ (runFromInit ops).list, e.1 < (internI (runFromInit ops) p).2)
    ∧ (∀ i, (retireI (runFromInit ops) i).maxInode = (runFromInit ops).maxInode
        ∧ getPath (retireI (runFromInit ops) i) i = none)
    ∧ (∀ p i, getInode (runFromInit ops) p = some i →
        getPath (runFromInit ops) i = some p) := by
  have hg : GoodT (runFromInit ops) := goodT_run ops inodesInit goodT_init hs
  obtain ⟨hnd, hinj, hle⟩ := hg
  refine ⟨hnd, hinj, hle, ?_, ?_, ?_, ?_⟩
  · intro p i hp
    simp [internI, hp]
  · intro p hp
    refine ⟨by simp [internI, hp], by simp [internI, hp], ?_⟩
    intro e he
    simp only [internI, hp]
    exact Nat.lt_succ_of_le (hle e he)
  · intro i
    exact ⟨rfl, alookup_removeKey_self hnd⟩
  · intro p i hp
    exact alookup_of_mem hnd (pfind_mem hp)

/-- Claim C7, witness for the amended theorem on a single intern. -/
theorem inode_table_contract_witness :
    safeTrace inodesInit [InodeOp.intern "/a"]
    ∧ PathInj (runFromInit [InodeOp.intern "/a"]).list :=
  ⟨⟨trivial, trivial⟩,
    (inode_table_contract [InodeOp.intern "/a"] ⟨trivial, trivial⟩).2.1⟩

/-- Claim C8. On a valid open file handle (present in both the file-handle
and the path-handle table): an offset at or past the file size replies
Eof; otherwise the reply carries the slice of the file at the offset,
truncated to the bytes actually read, whose length is min(len, size -
offset) and in particular at most len. -/
theorem read_bounds (s : SrvSession) (h p : String) (f : SrvFile)
    (offset len : Nat)
    (hf : alookup h s.fileHandles = some f)
    (hp : alookup h s.handles = some p) :
    (f.content.length ≤ offset → sread s h offset len = SOut.err StatusC.eof)
    ∧ (offset < f.content.length →
        sread s h offset len
          = SOut.ok ((f.content.drop offset).take (min len (f.content.length - offset)))
        ∧ ((f.content.drop offset).take (min len (f.content.length - offset))).length
            = min len (f.content.length - offset)
        ∧ ((f.content.drop offset).take (min len (f.content.length - offset))).length
            ≤ len) := by
  constructor
  · intro hle
    simp [sread, hf, hle]
  · intro hlt
    have hnle : ¬ f.content.length ≤ offset := Nat.not_le_of_lt hlt
    refine ⟨by simp [sread, hf, hp, hnle], ?_, ?_⟩
    · simp only [List.length_take, List.length_drop]
      omega
    · simp only [List.length_take, List.length_drop]
      omega

/-- Claim C8, witness at a three-byte file read past the start. -/
theorem read_bounds_witness :
    sread (sopen srvInit0 1 "/f" ⟨[9, 8, 7]⟩).1 "handle_1" 1 5 = SOut.ok [8, 7] := by
  have h := (read_bounds (sopen srvInit0 1 "/f" ⟨[9, 8, 7]⟩).1 "handle_1" "/f"
    ⟨[9, 8, 7]⟩ 1 5 (by decide) (by decide)).2 (by decide)
  exact h.1

/-- Claim C9. A mode whose file-type bits differ from S_IFREG replies
EPERM before any remote call; for a regular-file mode with a bound
parent the remote open_mode is issued with the CREATE flag and the mode
masked with the complement of umask, the file-type bits passing through
unmasked: on every bit inside S_IFMT the sent mode agrees with mode, on
every bit outside S_IFMT it agrees with mode AND NOT umask. -/
theorem mknod_mode_mask (pb : Bool) (mode umask : Nat)
    (_hm : mode < 2 ^ 32) (_hu : umask < 2 ^ 32) :
    (mode &&& sIfmt ≠ sIfreg → mknodModel pb mode umask = MknodResult.eperm)
    ∧ (mode &&& sIfmt = sIfreg →
        mknodModel true mode umask = MknodResult.remote true (maskedMode mode umask))
    ∧ maskedMode mode umask &&& sIfmt = mode &&& sIfmt
    ∧ (∀ i, sIfmt.testBit i = true →
        (maskedMode mode umask).testBit i = mode.testBit i)
    ∧ (∀ i, sIfmt.testBit i = false →
        (maskedMode mode umask).testBit i = (mode &&& not32 umask).testBit i) := by
  refine ⟨?_, ?_, ?_, ?_, ?_⟩
  · intro hne
    simp [mknodModel, hne]
  · intro heq
    simp [mknodModel, heq]
  · apply Nat.eq_of_testBit_eq
    intro i
    simp only [maskedMode, Nat.testBit_land, Nat.testBit_lor]
    cases hb1 : mode.testBit i <;> cases hb2 : (not32 umask).testBit i <;>
      cases hb3 : sIfmt.testBit i <;> simp
  · intro i hb3
    simp only [maskedMode, Nat.testBit_land, Nat.testBit_lor, hb3]
    cases hb1 : mode.testBit i <;> simp
  · intro i hb3
    simp only [maskedMode, Nat.testBit_land, Nat.testBit_lor, hb3]
    cases hb1 : mode.testBit i <;> cases hb2 : (not32 umask).testBit i <;> simp

/-- Claim C9, witness at mode 0o100644 and umask 0o022. -/
theorem mknod_mode_mask_witness :
    mknodModel true 0o100644 0o022 = MknodResult.remote true (maskedMode 0o100644 0o022) :=
  (mknod_mode_mask true 0o100644 0o022 (by decide) (by decide)).2.1 (by decide)

/-- Claim C10. In unlink and rmdir, when the remote removal succeeds
(remote = none), reply.ok is sent only if the composed path
parent_path/name is bound in the inode table; when that path is absent
the unwrap panics and no reply at all is produced. -/
theorem unlink_rmdir_requires_interned (t : Inodes) (parent : Nat) (name pp : String)
    (hp : getPath t parent = some pp) :
    ((unlinkModel t parent name none).2 = ReplyOut.okReply →
      getInode t (pp ++ "/" ++ name) ≠ none)
    ∧ (getInode t (pp ++ "/" ++ name) = none →
      (unlinkModel t parent name none).2 = ReplyOut.panic)
    ∧ ((rmdirModel t parent name none).2 = ReplyOut.okReply →
      getInode t (pp ++ "/" ++ name) ≠ none)
    ∧ (getInode t (pp ++ "/" ++ name) = none →
      (rmdirModel t parent name none).2 = ReplyOut.panic) := by
  refine ⟨?_, ?_, ?_, ?_⟩
  · intro hok hnone
    simp [unlinkModel, hp, hnone] at hok
  · intro hnone
    simp [unlinkModel, hp, hnone]
  · intro hok hnone
    simp [rmdirModel, hp, hnone] at hok
  · intro hnone
    simp [rmdirModel, hp, hnone]

/-- Claim C10, witness: remote success on a path never interned panics. -/
theorem unlink_rmdir_requires_interned_witness :
    (unlinkModel ⟨[(1, "/")], 1⟩ 1 "x" none).2 = ReplyOut.panic :=
  (unlink_rmdir_requires_interned ⟨[(1, "/")], 1⟩ 1 "x" "/" (by decide)).2.1 (by decide)
